import Mathlib

/-!
Verification of the keadm configuration-resolution and deployment-orchestration
engine (KubeEdge installer CLI).

Go strings are embedded as lists of characters (`GoStr`); Go's byte-wise
lexicographic string comparison is `leGo` (for valid UTF-8, byte order and
code-point order agree).  Fallible Go code returns `Option`/`Except`; a Go
runtime panic (index out of range) is an `Option.none` branch.  External
collaborators (the helm backend, the profile store, the YAML/strvals parsers,
the config validator, the filesystem) are parameters of the embedded
functions.
-/

/-- A Go string, embedded as its list of characters. -/
abbrev GoStr := List Char

/-- Conversion from Lean string literals to embedded Go strings. -/
def str (s : String) : GoStr := s.toList

/-- Go `s <= t` for strings: byte-wise lexicographic comparison. -/
def leGo : GoStr → GoStr → Bool
  | [], _ => true
  | _ :: _, [] => false
  | a :: as, b :: bs => if a < b then true else if b < a then false else leGo as bs

/-- The characters of `s` strictly before the first occurrence of `c`
(all of `s` if `c` does not occur); `strings.Split(s, c)[0]`. -/
def takeUntil (c : Char) : GoStr → GoStr
  | [] => []
  | x :: xs => if x = c then [] else x :: takeUntil c xs

/-- The characters of `s` strictly after the first occurrence of `c`
(empty if `c` does not occur). -/
def dropAfter (c : Char) : GoStr → GoStr
  | [] => []
  | x :: xs => if x = c then xs else dropAfter c xs

/-- Go `strings.Split(s, string(c))`: split on every occurrence of `c`.
Always returns a non-empty list. -/
def splitGo (c : Char) : GoStr → List GoStr
  | [] => [[]]
  | x :: xs =>
    if x = c then [] :: splitGo c xs
    else
      match splitGo c xs with
      | [] => [[x]]
      | h :: t => (x :: h) :: t

/-- Go `strings.TrimPrefix(s, pre)`: drop `pre` if it is a prefix of `s`,
otherwise return `s` unchanged. -/
def trimPrefixGo (s pre : GoStr) : GoStr :=
  if pre.isPrefixOf s then s.drop pre.length else s

/-- Decimal rendering of a natural number, as in Go `strconv.Itoa` /
`fmt.Sprintf` with a `%d` verb. -/
def natStr (n : Nat) : GoStr := (toString n).toList

/- ### Deployment Orchestrator (`RunHelmInstall`, helminstaller.go 187-234) -/

/-- A call made by the orchestrator against the external helm backend.
`install` records the value tree it was given and whether namespace
auto-creation was requested. -/
inductive HelmCall (V : Type) where
  | upgrade (name : GoStr) (vals : V)
  | install (name : GoStr) (vals : V) (createNamespace : Bool)
  deriving DecidableEq

/-- The external deployment-apply backend: the outcome (an error message, or
`none` for success) that an upgrade resp. install attempt would produce for a
given release name and value tree. -/
structure HelmBackend (V : Type) where
  upgradeErr : GoStr → V → Option GoStr
  installErr : GoStr → V → Option GoStr

/-- The error text of `driver.NewErrNoDeployedReleases(name)` from the helm
storage driver (external library): `%q has no deployed releases`. -/
def errNoDeployedReleases (name : GoStr) : GoStr :=
  '"' :: name ++ str "\" has no deployed releases"

/-- `RunHelmInstall` (helminstaller.go 187-234): attempt an upgrade of the
component; if the upgrade error is exactly the "no deployed releases" error
for the component name, fall back to a single install with the same value
tree (with `CreateNamespace = true`); otherwise propagate the upgrade error.
Returns the trace of backend calls together with the returned error. -/
def RunHelmInstall {V : Type} (b : HelmBackend V) (name : GoStr) (vals : V) :
    List (HelmCall V) × Option GoStr :=
  match b.upgradeErr name vals with
  | none => ([HelmCall.upgrade name vals], none)
  | some e =>
    if e = errNoDeployedReleases name then
      ([HelmCall.upgrade name vals, HelmCall.install name vals true],
        b.installErr name vals)
    else
      ([HelmCall.upgrade name vals], some e)

/-- Number of install calls in a trace. -/
def countInstalls {V : Type} (calls : List (HelmCall V)) : Nat :=
  calls.countP fun c => match c with
    | HelmCall.install _ _ _ => true
    | _ => false

/-- Number of upgrade calls in a trace. -/
def countUpgrades {V : Type} (calls : List (HelmCall V)) : Nat :=
  calls.countP fun c => match c with
    | HelmCall.upgrade _ _ => true
    | _ => false

/-- Claim C1: a deployment apply first attempts an upgrade (exactly one
upgrade call, so no retry); it invokes install exactly once if and only if
the upgrade error is exactly the well-known "no deployed releases" error for
the component name; every install call uses the same value tree and
auto-creates the namespace; a successful upgrade yields no error, any other
upgrade error is returned as is with no install attempt, and the install
result (success or failure) is returned as is with no further retry. -/
theorem runHelmInstall_correct {V : Type} (b : HelmBackend V) (name : GoStr)
    (vals : V) :
    (countInstalls (RunHelmInstall b name vals).1 = 1 ↔
      b.upgradeErr name vals = some (errNoDeployedReleases name))
    ∧ countInstalls (RunHelmInstall b name vals).1 ≤ 1
    ∧ countUpgrades (RunHelmInstall b name vals).1 = 1
    ∧ (∀ n v cns, HelmCall.install n v cns ∈ (RunHelmInstall b name vals).1 →
        n = name ∧ v = vals ∧ cns = true)
    ∧ (b.upgradeErr name vals = none → (RunHelmInstall b name vals).2 = none)
    ∧ (∀ e, b.upgradeErr name vals = some e → e ≠ errNoDeployedReleases name →
        (RunHelmInstall b name vals).2 = some e)
    ∧ (b.upgradeErr name vals = some (errNoDeployedReleases name) →
        (RunHelmInstall b name vals).2 = b.installErr name vals) := by
  unfold RunHelmInstall
  cases hup : b.upgradeErr name vals with
  | none =>
    simp [countInstalls, countUpgrades]
  | some e =>
    by_cases he : e = errNoDeployedReleases name
    · subst he
      simp [countInstalls, countUpgrades]
    · simp [countInstalls, countUpgrades, he]

/-- Witness for C1 at a concrete backend whose upgrade fails with exactly the
"no deployed releases" error: install is invoked exactly once, with the same
value tree, and the install result is returned. -/
theorem runHelmInstall_correct_witness :
    countInstalls (RunHelmInstall
        (HelmBackend.mk (fun n _ => some (errNoDeployedReleases n))
          (fun _ _ => none) : HelmBackend Nat) (str "cloudcore") 7).1 = 1
    ∧ (RunHelmInstall
        (HelmBackend.mk (fun n _ => some (errNoDeployedReleases n))
          (fun _ _ => none) : HelmBackend Nat) (str "cloudcore") 7).2 = none := by
  refine ⟨?_, ?_⟩
  · exact (runHelmInstall_correct
      (HelmBackend.mk (fun n _ => some (errNoDeployedReleases n))
        (fun _ _ => none) : HelmBackend Nat) (str "cloudcore") 7).1.mpr rfl
  · exact (runHelmInstall_correct
      (HelmBackend.mk (fun n _ => some (errNoDeployedReleases n))
        (fun _ _ => none) : HelmBackend Nat) (str "cloudcore") 7).2.2.2.2.2.2 rfl

/- ### Override Merger (`rebuildFlagVals`, helminstaller.go 291-335) -/

/-- The Go string order as a relation, for use with `List.insertionSort`
(`sort.Strings`). -/
def sle (a b : GoStr) : Prop := leGo a b = true

instance : DecidableRel sle := fun a b => by unfold sle; infer_instance

theorem leGo_refl (a : GoStr) : leGo a a = true := by
  induction a with
  | nil => rfl
  | cons x xs ih => simp [leGo, ih]

theorem leGo_cons_iff (x y : Char) (xs ys : GoStr) :
    leGo (x :: xs) (y :: ys) = true ↔ x < y ∨ (x = y ∧ leGo xs ys = true) := by
  simp only [leGo]
  rcases lt_trichotomy x y with h | h | h
  · simp [h]
  · simp [h, lt_irrefl]
  · simp [h, lt_asymm h, ne_of_gt h]

theorem leGo_total (a b : GoStr) : leGo a b = true ∨ leGo b a = true := by
  induction a generalizing b with
  | nil => left; rfl
  | cons x xs ih =>
    cases b with
    | nil => right; rfl
    | cons y ys =>
      rw [leGo_cons_iff, leGo_cons_iff]
      rcases lt_trichotomy x y with h | h | h
      · exact Or.inl (Or.inl h)
      · subst h
        rcases ih ys with h' | h'
        · exact Or.inl (Or.inr ⟨rfl, h'⟩)
        · exact Or.inr (Or.inr ⟨rfl, h'⟩)
      · exact Or.inr (Or.inl h)

theorem leGo_trans {a b c : GoStr} (h1 : leGo a b = true) (h2 : leGo b c = true) :
    leGo a c = true := by
  induction a generalizing b c with
  | nil => rfl
  | cons x xs ih =>
    cases b with
    | nil => simp [leGo] at h1
    | cons y ys =>
      cases c with
      | nil => simp [leGo] at h2
      | cons z zs =>
        rw [leGo_cons_iff] at h1 h2 ⊢
        rcases h1 with h1 | ⟨rfl, h1⟩
        · rcases h2 with h2 | ⟨rfl, _⟩
          · exact Or.inl (lt_trans h1 h2)
          · exact Or.inl h1
        · rcases h2 with h2 | ⟨rfl, h2⟩
          · exact Or.inl h2
          · exact Or.inr ⟨rfl, ih h1 h2⟩

theorem leGo_antisymm {a b : GoStr} (h1 : leGo a b = true) (h2 : leGo b a = true) :
    a = b := by
  induction a generalizing b with
  | nil =>
    cases b with
    | nil => rfl
    | cons y ys => simp [leGo] at h2
  | cons x xs ih =>
    cases b with
    | nil => simp [leGo] at h1
    | cons y ys =>
      rw [leGo_cons_iff] at h1 h2
      rcases h1 with h1 | ⟨rfl, h1⟩
      · rcases h2 with h2 | ⟨h2, _⟩
        · exact absurd h2 (lt_asymm h1)
        · exact absurd h2.symm (ne_of_lt h1)
      · rcases h2 with h2 | ⟨_, h2⟩
        · exact absurd h2 (lt_irrefl x)
        · exact congrArg (x :: ·) (ih h1 h2)

instance : IsTotal GoStr sle := ⟨leGo_total⟩

instance : IsTrans GoStr sle := ⟨fun _ _ _ => leGo_trans⟩

instance : IsAntisymm GoStr sle := ⟨fun _ _ => leGo_antisymm⟩

instance : IsRefl GoStr sle := ⟨leGo_refl⟩

/-- Go `sort.Strings`: sort a list of strings in byte-wise lexicographic
order. -/
def sortStrings (l : List GoStr) : List GoStr := List.insertionSort sle l

/-- The walk over the sorted override list (loop of `rebuildFlagVals`,
helminstaller.go 314-331).  Arguments mirror the Go loop state: the remaining
sorted expressions, the loop index, `formerValue`, and the accumulated `sets`.
An expression splitting into fewer than two parts on `=` is dropped (warning
only); an expression whose path equals `formerValue` at index `> 0` replaces
the most recently kept expression (`sets[len(sets)-1] = s`), which is an
index-out-of-range panic (`none`) when nothing has been kept yet. -/
def dedupGo : List GoStr → Nat → GoStr → List GoStr → Option (List GoStr)
  | [], _, _, acc => some acc
  | s :: rest, idx, former, acc =>
    let p := splitGo '=' s
    if p.length < 2 then
      dedupGo rest (idx + 1) former acc
    else if 0 < idx ∧ p.headD [] = former then
      if acc.isEmpty then none
      else dedupGo rest (idx + 1) (p.headD []) (acc.dropLast ++ [s])
    else
      dedupGo rest (idx + 1) (p.headD []) (acc ++ [s])

/-- The override merger core of `rebuildFlagVals` (helminstaller.go 311-333):
`sort.Strings(cu.Sets)` followed by the warn-drop/last-wins walk. -/
def mergeSets (sets : List GoStr) : Option (List GoStr) :=
  dedupGo (sortStrings sets) 0 [] []

example : mergeSets [str "a.b=1", str "a.b=2", str "c=3"] =
    some [str "a.b=2", str "c=3"] := by decide

example : mergeSets [str "c=3", str "a.b=2", str "a.b=1"] =
    some [str "a.b=2", str "c=3"] := by decide

example : mergeSets [str "1", str "=a"] = none := by decide

example : mergeSets [str "a1=y", str "a=x"] = some [str "a1=y", str "a=x"] := by
  decide

/-- The override path of an expression: the part before the first `=`
(`strings.Split(s, "=")[0]`). -/
def pathOf (s : GoStr) : GoStr := takeUntil '=' s

theorem not_mem_takeUntil (c : Char) (s : GoStr) : c ∉ takeUntil c s := by
  induction s with
  | nil => simp [takeUntil]
  | cons x xs ih =>
    by_cases h : x = c
    · simp [takeUntil, h]
    · simp [takeUntil, h, ih, Ne.symm h]

theorem takeUntil_of_not_mem {c : Char} {s : GoStr} (h : c ∉ s) :
    takeUntil c s = s := by
  induction s with
  | nil => rfl
  | cons x xs ih =>
    simp only [List.mem_cons, not_or] at h
    simp [takeUntil, Ne.symm h.1, ih h.2]

theorem takeUntil_append_cons {c : Char} {p : GoStr} (r : GoStr) (hp : c ∉ p) :
    takeUntil c (p ++ c :: r) = p := by
  induction p with
  | nil => simp [takeUntil]
  | cons x p' ih =>
    simp only [List.mem_cons, not_or] at hp
    simp [takeUntil, Ne.symm hp.1, ih hp.2]

theorem eq_takeUntil_append {c : Char} {s : GoStr} (h : c ∈ s) :
    s = takeUntil c s ++ c :: dropAfter c s := by
  induction s with
  | nil => simp at h
  | cons x xs ih =>
    by_cases hx : x = c
    · simp [takeUntil, dropAfter, hx]
    · have hxs : c ∈ xs := by
        rcases List.mem_cons.mp h with h' | h'
        · exact absurd h'.symm hx
        · exact h'
      simpa [takeUntil, dropAfter, hx] using ih hxs

theorem splitGo_eq (c : Char) (s : GoStr) :
    splitGo c s =
      if c ∈ s then takeUntil c s :: splitGo c (dropAfter c s) else [s] := by
  induction s with
  | nil => simp [splitGo]
  | cons x xs ih =>
    by_cases hx : x = c
    · simp [splitGo, takeUntil, dropAfter, hx]
    · by_cases hxs : c ∈ xs
      · have : splitGo c xs = takeUntil c xs :: splitGo c (dropAfter c xs) := by
          rw [ih]; simp [hxs]
        simp [splitGo, takeUntil, dropAfter, hx, hxs, Ne.symm hx, this]
      · have : splitGo c xs = [xs] := by rw [ih]; simp [hxs]
        simp [splitGo, takeUntil, dropAfter, hx, hxs, Ne.symm hx, this]

theorem splitGo_ne_nil (c : Char) (s : GoStr) : splitGo c s ≠ [] := by
  rw [splitGo_eq]
  by_cases h : c ∈ s <;> simp [h]

theorem splitGo_headD (c : Char) (s : GoStr) :
    (splitGo c s).headD [] = takeUntil c s := by
  rw [splitGo_eq]
  by_cases h : c ∈ s
  · simp [h]
  · simp [h, takeUntil_of_not_mem h]

theorem splitGo_length_lt_two (c : Char) (s : GoStr) :
    (splitGo c s).length < 2 ↔ c ∉ s := by
  rw [splitGo_eq]
  by_cases h : c ∈ s
  · have hpos := List.length_pos.mpr (splitGo_ne_nil c (dropAfter c s))
    simp only [h, if_true, List.length_cons, not_true, iff_false, not_lt]
    omega
  · simp [h]

theorem le_le_common_prefix :
    ∀ (p k x y : GoStr), leGo (p ++ x) k = true → leGo k (p ++ y) = true →
      ∃ z, k = p ++ z := by
  intro p
  induction p with
  | nil => exact fun k x y _ _ => ⟨k, rfl⟩
  | cons c p' ih =>
    intro k x y h1 h2
    cases k with
    | nil => simp [leGo] at h1
    | cons d k' =>
      rw [List.cons_append] at h1 h2
      rw [leGo_cons_iff] at h1 h2
      rcases h1 with h1 | ⟨rfl, h1⟩
      · rcases h2 with h2 | ⟨h2, _⟩
        · exact absurd (lt_trans h1 h2) (lt_irrefl c)
        · exact absurd h2.symm (ne_of_lt h1)
      · rcases h2 with h2 | ⟨_, h2⟩
        · exact absurd h2 (lt_irrefl c)
        · obtain ⟨z, hz⟩ := ih k' x y h1 h2
          exact ⟨z, by rw [hz, List.cons_append]⟩

/-- Between two kept override expressions with the same path, every string in
the Go sort order is also a kept expression with that path: same-path kept
expressions are contiguous after `sort.Strings`. -/
theorem path_between {a k s : GoStr} (ha : '=' ∈ a) (hs : '=' ∈ s)
    (hp : pathOf a = pathOf s) (h1 : sle a k) (h2 : sle k s) :
    pathOf k = pathOf a ∧ '=' ∈ k := by
  have hae : a = (pathOf a ++ ['=']) ++ dropAfter '=' a := by
    rw [List.append_assoc]
    exact eq_takeUntil_append ha
  have hse : s = (pathOf a ++ ['=']) ++ dropAfter '=' s := by
    rw [List.append_assoc, hp]
    exact eq_takeUntil_append hs
  unfold sle at h1 h2
  rw [hae] at h1
  rw [hse] at h2
  obtain ⟨z, hz⟩ := le_le_common_prefix (pathOf a ++ ['=']) k _ _ h1 h2
  rw [List.append_assoc] at hz
  subst hz
  constructor
  · exact takeUntil_append_cons z (not_mem_takeUntil '=' a)
  · simp


theorem dedupGo_cons_drop (s : GoStr) (rest : List GoStr) (idx : Nat)
    (former : GoStr) (acc : List GoStr) (h : (splitGo '=' s).length < 2) :
    dedupGo (s :: rest) idx former acc = dedupGo rest (idx + 1) former acc := by
  simp only [dedupGo]
  rw [if_pos h]

theorem dedupGo_cons_replace (s : GoStr) (rest : List GoStr) (idx : Nat)
    (former : GoStr) (acc : List GoStr) (h1 : ¬(splitGo '=' s).length < 2)
    (h2 : 0 < idx ∧ (splitGo '=' s).headD [] = former)
    (h3 : acc.isEmpty = false) :
    dedupGo (s :: rest) idx former acc =
      dedupGo rest (idx + 1) ((splitGo '=' s).headD []) (acc.dropLast ++ [s]) := by
  simp only [dedupGo]
  rw [if_neg h1, if_pos h2, h3]
  simp

theorem dedupGo_cons_append (s : GoStr) (rest : List GoStr) (idx : Nat)
    (former : GoStr) (acc : List GoStr) (h1 : ¬(splitGo '=' s).length < 2)
    (h2 : ¬(0 < idx ∧ (splitGo '=' s).headD [] = former)) :
    dedupGo (s :: rest) idx former acc =
      dedupGo rest (idx + 1) ((splitGo '=' s).headD []) (acc ++ [s]) := by
  simp only [dedupGo]
  rw [if_neg h1, if_neg h2]

/-- Soundness of the `rebuildFlagVals` walk.  Invariants: the remaining input
is sorted and its kept expressions have non-empty paths; the accumulator is
sorted, holds only kept expressions with pairwise distinct paths, precedes
the remaining input in sort order; `formerValue` is the path of the most
recently kept expression (empty when none was kept, in which case the
accumulator is empty too); and any remaining expression sharing a path with
an accumulated one shares it with the most recent (`formerValue`) entry. -/
theorem dedupGo_sound (R : List GoStr) :
    ∀ (idx : Nat) (former : GoStr) (acc : List GoStr),
    List.Pairwise sle R →
    (∀ s ∈ R, '=' ∈ s → pathOf s ≠ []) →
    List.Pairwise sle acc →
    (∀ a ∈ acc, '=' ∈ a) →
    (acc.map pathOf).Nodup →
    (∀ a ∈ acc, ∀ y ∈ R, sle a y) →
    (acc = [] → former = []) →
    (∀ h : acc ≠ [], 0 < idx ∧ pathOf (acc.getLast h) = former) →
    (∀ a ∈ acc, ∀ y ∈ R, '=' ∈ y → pathOf y = pathOf a → pathOf a = former) →
    ∃ out, dedupGo R idx former acc = some out ∧
      List.Pairwise sle out ∧
      (∀ s ∈ out, '=' ∈ s) ∧
      (out.map pathOf).Nodup ∧
      (∀ s ∈ out, s ∈ acc ∨ s ∈ R) ∧
      (∀ a ∈ acc, ∃ s ∈ out, pathOf s = pathOf a ∧ sle a s) ∧
      (∀ t ∈ R, '=' ∈ t → ∃ s ∈ out, pathOf s = pathOf t ∧ sle t s) := by
  induction R with
  | nil =>
    intro idx former acc _ _ hacc hkept hnodup _ _ _ _
    exact ⟨acc, rfl, hacc, hkept, hnodup, fun s hs => Or.inl hs,
      fun a ha => ⟨a, ha, rfl, leGo_refl a⟩,
      fun t ht => absurd ht (List.not_mem_nil t)⟩
  | cons s rest ih =>
    intro idx former acc hR hpaths hacc hkept hnodup haccR hemp hlast hcontig
    have hsR : ∀ y ∈ rest, sle s y := (List.pairwise_cons.mp hR).1
    have hrest : List.Pairwise sle rest := (List.pairwise_cons.mp hR).2
    by_cases hdrop : (splitGo '=' s).length < 2
    · -- warn-and-drop branch: `s` has no `=`
      have hsne : '=' ∉ s := (splitGo_length_lt_two '=' s).mp hdrop
      rw [dedupGo_cons_drop s rest idx former acc hdrop]
      obtain ⟨out, hout, h1, h2, h3, h4, h5, h6⟩ := ih (idx + 1) former acc hrest
        (fun y hy => hpaths y (List.mem_cons_of_mem s hy))
        hacc hkept hnodup
        (fun a ha y hy => haccR a ha y (List.mem_cons_of_mem s hy))
        hemp
        (fun h => ⟨Nat.succ_pos idx, (hlast h).2⟩)
        (fun a ha y hy hey hpy => hcontig a ha y (List.mem_cons_of_mem s hy) hey hpy)
      refine ⟨out, hout, h1, h2, h3, ?_, h5, ?_⟩
      · intro s' hs'
        rcases h4 s' hs' with h | h
        · exact Or.inl h
        · exact Or.inr (List.mem_cons_of_mem s h)
      · intro t ht hte
        rcases List.mem_cons.mp ht with rfl | ht'
        · exact absurd hte hsne
        · exact h6 t ht' hte
    · have hse : '=' ∈ s := by
        by_contra hc
        exact hdrop ((splitGo_length_lt_two '=' s).mpr hc)
      have hhead : (splitGo '=' s).headD [] = pathOf s := splitGo_headD '=' s
      have hPne : pathOf s ≠ [] := hpaths s (List.mem_cons_self s rest) hse
      by_cases hcond : 0 < idx ∧ (splitGo '=' s).headD [] = former
      · -- duplicate-removal branch: replace the most recently kept expression
        have hPf : pathOf s = former := by rw [← hhead]; exact hcond.2
        cases acc with
        | nil =>
          exfalso
          exact hPne (hPf.trans (hemp rfl))
        | cons a0 acc' =>
          have hne : (a0 :: acc') ≠ [] := List.cons_ne_nil a0 acc'
          have hfull : (a0 :: acc').dropLast ++ [(a0 :: acc').getLast hne] =
              a0 :: acc' := List.dropLast_append_getLast hne
          have hlastP : pathOf ((a0 :: acc').getLast hne) = former := (hlast hne).2
          have hdl : ∀ a ∈ (a0 :: acc').dropLast, a ∈ a0 :: acc' :=
            fun a ha => (List.dropLast_sublist (a0 :: acc')).subset ha
          rw [dedupGo_cons_replace s rest idx former (a0 :: acc') hdrop hcond rfl,
            hhead, hPf]
          have hmap : ((a0 :: acc').dropLast ++ [s]).map pathOf =
              (a0 :: acc').map pathOf := by
            conv_rhs => rw [← hfull]
            simp [hlastP, hPf]
          obtain ⟨out, hout, h1, h2, h3, h4, h5, h6⟩ :=
            ih (idx + 1) former ((a0 :: acc').dropLast ++ [s]) hrest
              (fun y hy => hpaths y (List.mem_cons_of_mem s hy))
              (by
                rw [List.pairwise_append]
                refine ⟨hacc.sublist (List.dropLast_sublist _),
                  List.pairwise_singleton _ _, ?_⟩
                intro a ha b hb
                rw [List.mem_singleton] at hb
                rw [hb]
                exact haccR a (hdl a ha) s (List.mem_cons_self s rest))
              (by
                intro a ha
                rcases List.mem_append.mp ha with h | h
                · exact hkept a (hdl a h)
                · rw [List.mem_singleton] at h
                  exact h ▸ hse)
              (by rw [hmap]; exact hnodup)
              (by
                intro a ha y hy
                rcases List.mem_append.mp ha with h | h
                · exact haccR a (hdl a h) y (List.mem_cons_of_mem s hy)
                · rw [List.mem_singleton] at h
                  exact h ▸ hsR y hy)
              (fun h => absurd h (by simp))
              (by
                intro h
                refine ⟨Nat.succ_pos idx, ?_⟩
                rw [List.getLast_append_singleton]
                exact hPf)
              (by
                intro a ha y hy hey hpy
                rcases List.mem_append.mp ha with h | h
                · exact hcontig a (hdl a h) y (List.mem_cons_of_mem s hy) hey hpy
                · rw [List.mem_singleton] at h
                  exact h ▸ hPf)
          refine ⟨out, hout, h1, h2, h3, ?_, ?_, ?_⟩
          · intro s' hs'
            rcases h4 s' hs' with h | h
            · rcases List.mem_append.mp h with h' | h'
              · exact Or.inl (hdl s' h')
              · rw [List.mem_singleton] at h'
                exact Or.inr (h' ▸ List.mem_cons_self s rest)
            · exact Or.inr (List.mem_cons_of_mem s h)
          · intro a ha
            have ha' : a ∈ (a0 :: acc').dropLast ++ [(a0 :: acc').getLast hne] := by
              rw [hfull]
              exact ha
            rcases List.mem_append.mp ha' with h | h
            · exact h5 a (List.mem_append_left _ h)
            · rw [List.mem_singleton] at h
              obtain ⟨s', hs', hp', hle'⟩ :=
                h5 s (List.mem_append_right _ (List.mem_singleton_self s))
              refine ⟨s', hs', ?_, ?_⟩
              · rw [hp', hPf, h, hlastP]
              · have h0 : sle a s := by
                  rw [h]
                  exact haccR _ (List.getLast_mem hne) s (List.mem_cons_self s rest)
                exact leGo_trans h0 hle'
          · intro t ht hte
            rcases List.mem_cons.mp ht with rfl | ht'
            · exact h5 t (List.mem_append_right _ (List.mem_singleton_self t))
            · exact h6 t ht' hte
      · -- append branch
        rw [dedupGo_cons_append s rest idx former acc hdrop hcond, hhead]
        have hnotin : pathOf s ∉ acc.map pathOf := by
          intro hmem
          obtain ⟨a, ha, hpa⟩ := List.mem_map.mp hmem
          have h1 : pathOf a = former :=
            hcontig a ha s (List.mem_cons_self s rest) hse hpa.symm
          have h2 : 0 < idx :=
            (hlast (by rintro rfl; exact absurd ha (List.not_mem_nil a))).1
          exact hcond ⟨h2, by rw [hhead, ← hpa, h1]⟩
        obtain ⟨out, hout, h1, h2, h3, h4, h5, h6⟩ :=
          ih (idx + 1) (pathOf s) (acc ++ [s]) hrest
            (fun y hy => hpaths y (List.mem_cons_of_mem s hy))
            (by
              rw [List.pairwise_append]
              refine ⟨hacc, List.pairwise_singleton _ _, ?_⟩
              intro a ha b hb
              rw [List.mem_singleton] at hb
              rw [hb]
              exact haccR a ha s (List.mem_cons_self s rest))
            (by
              intro a ha
              rcases List.mem_append.mp ha with h | h
              · exact hkept a h
              · rw [List.mem_singleton] at h
                exact h ▸ hse)
            (by
              rw [List.map_append, List.nodup_append]
              refine ⟨hnodup, by simp, ?_⟩
              intro x hx hx'
              simp only [List.map_cons, List.map_nil, List.mem_singleton] at hx'
              exact hnotin (hx' ▸ hx))
            (by
              intro a ha y hy
              rcases List.mem_append.mp ha with h | h
              · exact haccR a h y (List.mem_cons_of_mem s hy)
              · rw [List.mem_singleton] at h
                exact h ▸ hsR y hy)
            (fun h => absurd h (by simp))
            (by
              intro h
              exact ⟨Nat.succ_pos idx, by rw [List.getLast_append_singleton]⟩)
            (by
              intro a ha y hy hey hpy
              rcases List.mem_append.mp ha with h | h
              · exact ((path_between (hkept a h) hey hpy.symm
                  (haccR a h s (List.mem_cons_self s rest)) (hsR y hy)).1).symm
              · rw [List.mem_singleton] at h
                rw [h])
        refine ⟨out, hout, h1, h2, h3, ?_, ?_, ?_⟩
        · intro s' hs'
          rcases h4 s' hs' with h | h
          · rcases List.mem_append.mp h with h' | h'
            · exact Or.inl h'
            · rw [List.mem_singleton] at h'
              exact Or.inr (h' ▸ List.mem_cons_self s rest)
          · exact Or.inr (List.mem_cons_of_mem s h)
        · intro a ha
          exact h5 a (List.mem_append_left _ ha)
        · intro t ht hte
          rcases List.mem_cons.mp ht with rfl | ht'
          · exact h5 t (List.mem_append_right _ (List.mem_singleton_self t))
          · exact h6 t ht' hte

/-- Soundness of the merger core: on any override list whose kept expressions
(those containing `=`) have non-empty paths, the walk terminates without the
index-out-of-range panic and returns a list of kept expressions, sorted in Go
string order, with pairwise distinct paths, drawn from the input, such that
every kept input expression is dominated (same path, later or equal in sort
order) by some output expression. -/
theorem mergeSets_sound (l : List GoStr) (h : ∀ s ∈ l, '=' ∈ s → pathOf s ≠ []) :
    ∃ out, mergeSets l = some out ∧
      List.Pairwise sle out ∧
      (∀ s ∈ out, '=' ∈ s) ∧
      (out.map pathOf).Nodup ∧
      (∀ s ∈ out, s ∈ l) ∧
      (∀ t ∈ l, '=' ∈ t → ∃ s ∈ out, pathOf s = pathOf t ∧ sle t s) := by
  have hperm : (sortStrings l).Perm l := List.perm_insertionSort sle l
  have hsorted : List.Pairwise sle (sortStrings l) := List.sorted_insertionSort sle l
  obtain ⟨out, hout, h1, h2, h3, h4, h5, h6⟩ :=
    dedupGo_sound (sortStrings l) 0 [] [] hsorted
      (fun s hs => h s (hperm.subset hs))
      List.Pairwise.nil
      (fun a ha => absurd ha (List.not_mem_nil a))
      (by simp)
      (fun a ha => absurd ha (List.not_mem_nil a))
      (fun _ => rfl)
      (fun hne => absurd rfl hne)
      (fun a ha => absurd ha (List.not_mem_nil a))
  refine ⟨out, hout, h1, h2, h3, ?_, ?_⟩
  · intro s hs
    rcases h4 s hs with h' | h'
    · exact absurd h' (List.not_mem_nil s)
    · exact hperm.subset h'
  · intro t ht hte
    exact h6 t (hperm.mem_iff.mpr ht) hte

/-- The merger is invariant under permutation of its input: sorting first
normalizes the order. -/
theorem mergeSets_perm_eq {l l' : List GoStr} (h : l.Perm l') :
    mergeSets l = mergeSets l' := by
  have hs : sortStrings l = sortStrings l' :=
    List.eq_of_perm_of_sorted
      ((List.perm_insertionSort sle l).trans
        (h.trans (List.perm_insertionSort sle l').symm))
      (List.sorted_insertionSort sle l) (List.sorted_insertionSort sle l')
  unfold mergeSets
  rw [hs]

/-- Claim C2, counterexample: the claim as stated fails on the code in two
ways.  (1) On input `["a1=y", "a=x"]` the merger succeeds but its output is
not in path-sorted order: the paths appear as `["a1", "a"]`, and `"a1"` is
not `<=` `"a"` in the sort order used.  (2) On input `["1", "=a"]` the
sorted walk first drops `"1"` (no `=`), then meets `"=a"` whose path `""`
equals the initial `formerValue` at index `1 > 0`, and executes
`sets[len(sets)-1] = s` on an empty slice: an index-out-of-range panic, not
the claimed deduplicated output. -/
theorem rebuildFlagVals_claim_counterexample :
    mergeSets [str "a1=y", str "a=x"] = some [str "a1=y", str "a=x"]
    ∧ ¬ sle (pathOf (str "a1=y")) (pathOf (str "a=x"))
    ∧ mergeSets [str "1", str "=a"] = none :=
  ⟨by decide, by decide, by decide⟩

/-- Claim C2 (amended): for every input list of override strings in which
every expression containing `=` has a non-empty path, the merger
lexicographically sorts the list, drops every expression containing no `=`
(a printed warning, not an error), and deduplicates by path: the output
consists of kept input expressions, appears in full-expression sort order
(not necessarily path-sorted), contains each kept path exactly once, and for
each path the last expression in sort order wins; in particular, for input
`["a.b=1", "a.b=2", "c=3"]` in any input order the output is exactly
`["a.b=2", "c=3"]`. -/
theorem rebuildFlagVals_merge_amended :
    (∀ l : List GoStr, (∀ s ∈ l, '=' ∈ s → pathOf s ≠ []) →
      ∃ out, mergeSets l = some out ∧
        List.Pairwise sle out ∧
        (∀ s ∈ out, '=' ∈ s) ∧
        (out.map pathOf).Nodup ∧
        (∀ s ∈ out, s ∈ l) ∧
        (∀ t ∈ l, '=' ∈ t → ∃ s ∈ out, pathOf s = pathOf t ∧ sle t s))
    ∧ (∀ l : List GoStr, l.Perm [str "a.b=1", str "a.b=2", str "c=3"] →
        mergeSets l = some [str "a.b=2", str "c=3"]) := by
  constructor
  · exact mergeSets_sound
  · intro l hl
    rw [mergeSets_perm_eq hl]
    decide

/-- Witness for the amended C2 at the claim's own example, supplied in
reversed order. -/
theorem rebuildFlagVals_merge_amended_witness :
    mergeSets [str "c=3", str "a.b=2", str "a.b=1"] =
      some [str "a.b=2", str "c=3"] :=
  rebuildFlagVals_merge_amended.2 [str "c=3", str "a.b=2", str "a.b=1"] (by decide)

/- ### Profile Resolver (`BeforeRenderer` / `checkProfile` / `handleProfile`,
helminstaller.go 102-128, 246-289) -/

/-- Modelled from the spec: profile key `version` of the common `types`
package (outside `src/`). -/
def versionProfileKey : GoStr := str "version"

/-- Modelled from the spec: profile key `iptablesMgrMode` of the common
`types` package (outside `src/`). -/
def iptablesMgrProfileKey : GoStr := str "iptablesMgrMode"

/-- Modelled from the spec: profile key `edgemesh` of the common `types`
package (outside `src/`). -/
def edgemeshProfileKey : GoStr := str "edgemesh"

/-- Modelled from the spec: iptables-manager mode `internal` of the common
`types` package (outside `src/`). -/
def internalIptablesMgrMode : GoStr := str "internal"

/-- Modelled from the spec: iptables-manager mode `external` of the common
`types` package (outside `src/`). -/
def externalIptablesMgrMode : GoStr := str "external"

/-- A non-empty all-digit numeral, or `none`. -/
def parseDigits (s : GoStr) : Option Nat :=
  if s = [] then none
  else if s.all (fun c => c.isDigit) then
    some (s.foldl (fun n c => n * 10 + (c.toNat - 48)) 0)
  else none

/-- Modelled from the spec: `semver.Make` of the external `blang/semver`
library, restricted to plain `MAJOR.MINOR.PATCH` versions (the only shape the
spec and claims exercise). -/
def parseSemver (s : GoStr) : Option (Nat × Nat × Nat) :=
  match splitGo '.' s with
  | [a, b, c] =>
    match parseDigits a, parseDigits b, parseDigits c with
    | some ma, some mb, some mc => some (ma, mb, mc)
    | _, _, _ => none
  | _ => none

/-- Modelled from the spec: the `LT` comparison of the external semver
library on plain versions: lexicographic on (major, minor, patch). -/
def ltVer : Nat × Nat × Nat → Nat × Nat × Nat → Bool
  | (a1, b1, c1), (a2, b2, c2) =>
    if a1 < a2 then true
    else if a2 < a1 then false
    else if b1 < b2 then true
    else if b2 < b1 then false
    else decide (c1 < c2)

/-- The minimum supported version as parsed by `handleProfile`
(helminstaller.go 268): `semver.Make(strings.TrimPrefix(min, "v"))` with the
parse error ignored, so an unparseable minimum compares as the zero
version. -/
def minSemOf (minVersion : GoStr) : Nat × Nat × Nat :=
  (parseSemver (trimPrefixGo minVersion (str "v"))).getD (0, 0, 0)

/-- The two ways `handleProfile` can fail, by `return` site
(helminstaller.go 266 resp. 270). -/
inductive ProfileErr where
  | semverParse
  | unsupportedVersion
  deriving DecidableEq

/-- `handleProfile` (helminstaller.go 258-289).  The Go method mutates
`cu.Sets` and the local `profileValue`; here it returns the new `Sets`
together with the final value of `profileValue`.  `minVersion` stands for
`types.HelmSupportedMinVersion` (outside `src/`). -/
def handleProfile (minVersion profileKey : GoStr) (sets : List GoStr)
    (profileValue : GoStr) : Except ProfileErr (List GoStr × GoStr) :=
  if profileKey = versionProfileKey then
    let profileValueSuffix := trimPrefixGo profileValue (str "v")
    if profileValue ≠ profileValueSuffix then
      match parseSemver profileValueSuffix with
      | none => Except.error ProfileErr.semverParse
      | some version =>
        if ltVer version (minSemOf minVersion) then
          Except.error ProfileErr.unsupportedVersion
        else
          Except.ok (sets ++
            [str "cloudCore.image.tag=v" ++ profileValueSuffix,
             str "iptablesManager.image.tag=v" ++ profileValueSuffix],
            profileValue)
    else
      Except.ok (sets ++
        [str "cloudCore.image.tag=" ++ profileValue,
         str "iptablesManager.image.tag=" ++ profileValue],
        profileValue)
  else if profileKey = iptablesMgrProfileKey then
    if profileValue = internalIptablesMgrMode ∨
        profileValue = externalIptablesMgrMode then
      Except.ok (sets ++ [str "iptablesManager.mode=" ++ profileValue],
        profileValue)
    else
      Except.ok (sets, externalIptablesMgrMode)
  else
    Except.ok (sets, profileValue)

theorem trimPrefixGo_of_isPrefixOf {pre s : GoStr} (h : pre.isPrefixOf s = true) :
    trimPrefixGo s pre = s.drop pre.length := by
  unfold trimPrefixGo
  rw [if_pos h]

theorem v_branch_iff (s : GoStr) :
    (s ≠ trimPrefixGo s (str "v")) ↔ (str "v").isPrefixOf s = true := by
  constructor
  · intro h
    by_contra hc
    rw [Bool.not_eq_true] at hc
    exact h (by unfold trimPrefixGo; rw [hc]; simp)
  · intro h
    have hpre : str "v" <+: s := by
      rw [← List.isPrefixOf_iff_prefix]
      exact h
    obtain ⟨t, ht⟩ := hpre
    rw [trimPrefixGo_of_isPrefixOf h, ← ht]
    intro hcontra
    have := congrArg List.length hcontra
    simp [str] at this

/-- Claim C4: for the `version` profile key, a `v`-prefixed value is parsed
as a semantic version and compared to the minimum supported version: parse
failure is an error, a version below the minimum fails with the
unsupported-version error, and otherwise exactly two override expressions
are appended, setting `cloudCore.image.tag` and `iptablesManager.image.tag`
both to the normalized `v<version>` string; a value that is not `v`-prefixed
is not version-checked and is set verbatim on both tags. -/
theorem handleProfile_version_correct (minVersion profileValue : GoStr)
    (sets : List GoStr) :
    ((str "v").isPrefixOf profileValue = true →
      (parseSemver (profileValue.drop 1) = none →
        handleProfile minVersion versionProfileKey sets profileValue =
          Except.error ProfileErr.semverParse)
      ∧ (∀ ver, parseSemver (profileValue.drop 1) = some ver →
        (ltVer ver (minSemOf minVersion) = true →
          handleProfile minVersion versionProfileKey sets profileValue =
            Except.error ProfileErr.unsupportedVersion)
        ∧ (ltVer ver (minSemOf minVersion) = false →
          handleProfile minVersion versionProfileKey sets profileValue =
            Except.ok (sets ++
              [str "cloudCore.image.tag=v" ++ profileValue.drop 1,
               str "iptablesManager.image.tag=v" ++ profileValue.drop 1],
              profileValue))))
    ∧ ((str "v").isPrefixOf profileValue = false →
      handleProfile minVersion versionProfileKey sets profileValue =
        Except.ok (sets ++
          [str "cloudCore.image.tag=" ++ profileValue,
           str "iptablesManager.image.tag=" ++ profileValue],
          profileValue)) := by
  constructor
  · intro hpre
    have hne : profileValue ≠ trimPrefixGo profileValue (str "v") :=
      (v_branch_iff profileValue).mpr hpre
    have hdrop : trimPrefixGo profileValue (str "v") = profileValue.drop 1 := by
      rw [trimPrefixGo_of_isPrefixOf hpre]
      rfl
    constructor
    · intro hparse
      unfold handleProfile
      rw [if_pos rfl, if_pos hne, hdrop, hparse]
    · intro ver hparse
      constructor
      · intro hlt
        unfold handleProfile
        rw [if_pos rfl, if_pos hne, hdrop, hparse]
        simp only [hlt, if_true]
      · intro hlt
        unfold handleProfile
        rw [if_pos rfl, if_pos hne, hdrop, hparse]
        simp only [hlt]
        rw [if_neg (by simp)]
  · intro hpre
    have heq : trimPrefixGo profileValue (str "v") = profileValue := by
      unfold trimPrefixGo
      rw [hpre]
      simp
    unfold handleProfile
    rw [if_pos rfl, if_neg (by rw [heq]; simp)]

/-- Witness for C4: with minimum supported version `v1.3.0`, the profile
value `v1.5.0` resolves without error to exactly the two image-tag
overrides `v1.5.0`. -/
theorem handleProfile_version_correct_witness :
    handleProfile (str "v1.3.0") versionProfileKey [] (str "v1.5.0") =
      Except.ok ([str "cloudCore.image.tag=v1.5.0",
        str "iptablesManager.image.tag=v1.5.0"], str "v1.5.0") := by
  have h := (((handleProfile_version_correct (str "v1.3.0") (str "v1.5.0") []).1
    (by decide)).2 (1, 5, 0) (by decide)).2 (by decide)
  have heq : ([] : List GoStr) ++
      [str "cloudCore.image.tag=v" ++ (str "v1.5.0").drop 1,
       str "iptablesManager.image.tag=v" ++ (str "v1.5.0").drop 1] =
      [str "cloudCore.image.tag=v1.5.0",
       str "iptablesManager.image.tag=v1.5.0"] := by decide
  rw [h, heq]

/-- Claim C5: for the `iptablesMgrMode` profile key, any value outside the
enum (internal, external) makes resolution succeed with no error, with the
mode value coerced to `external` (and no override appended). -/
theorem handleProfile_iptables_coerce (minVersion profileValue : GoStr)
    (sets : List GoStr) (h1 : profileValue ≠ internalIptablesMgrMode)
    (h2 : profileValue ≠ externalIptablesMgrMode) :
    handleProfile minVersion iptablesMgrProfileKey sets profileValue =
      Except.ok (sets, externalIptablesMgrMode) := by
  unfold handleProfile
  rw [if_neg (by decide), if_pos rfl, if_neg (by
    intro h
    rcases h with h | h
    · exact h1 h
    · exact h2 h)]

/-- Witness for C5 at the claim's example `iptablesMgrMode=bogus`. -/
theorem handleProfile_iptables_coerce_witness :
    handleProfile (str "v1.3.0") iptablesMgrProfileKey [] (str "bogus") =
      Except.ok ([], externalIptablesMgrMode) :=
  handleProfile_iptables_coerce (str "v1.3.0") (str "bogus") []
    (by decide) (by decide)

/-- The fields of the Go `KubeCloudHelmInstTool` used by the embedded
resolution pipeline (remaining Go fields only feed external collaborators:
kubeconfig, namespace, dry-run, force, manifests). -/
structure KubeCloudHelmInstTool where
  AdvertiseAddress : GoStr
  CloudcoreImage : GoStr
  CloudcoreTag : GoStr
  IptablesMgrImage : GoStr
  IptablesMgrTag : GoStr
  Sets : List GoStr
  Profile : GoStr
  ProfileKey : GoStr
  deriving DecidableEq

/-- A tool carrying only a profile string, as built by the CLI layer when no
other flag is supplied. -/
def initCloudTool (profile : GoStr) : KubeCloudHelmInstTool :=
  { AdvertiseAddress := [], CloudcoreImage := [], CloudcoreTag := [],
    IptablesMgrImage := [], IptablesMgrTag := [], Sets := [],
    Profile := profile, ProfileKey := [] }

/-- The flag-derived override expressions appended by `rebuildFlagVals`
(helminstaller.go 293-309), in source order: advertise addresses (indexed),
cloudcore image and tag, iptables-manager image and tag. -/
def flagSets (cu : KubeCloudHelmInstTool) : List GoStr :=
  (if cu.AdvertiseAddress = [] then [] else
    (splitGo ',' cu.AdvertiseAddress).enum.map fun p =>
      str "cloudCore.modules.cloudHub.advertiseAddress[" ++ natStr p.1 ++
        (']' :: '=' :: p.2))
  ++ (if cu.CloudcoreImage = [] then [] else
    [str "cloudCore.image.repository=" ++ cu.CloudcoreImage])
  ++ (if cu.CloudcoreTag = [] then [] else
    [str "cloudCore.image.tag=" ++ cu.CloudcoreTag])
  ++ (if cu.IptablesMgrImage = [] then [] else
    [str "iptablesManager.image.repository=" ++ cu.IptablesMgrImage])
  ++ (if cu.IptablesMgrTag = [] then [] else
    [str "iptablesManager.image.tag=" ++ cu.IptablesMgrTag])

/-- `rebuildFlagVals` (helminstaller.go 291-335): append the flag-derived
expressions to `cu.Sets`, then sort, warn-drop and deduplicate; `none` is
the index-out-of-range panic of the walk. -/
def rebuildFlagVals (cu : KubeCloudHelmInstTool) :
    Option KubeCloudHelmInstTool :=
  (mergeSets (cu.Sets ++ flagSets cu)).map fun s => { cu with Sets := s }

/-- `checkProfile` (helminstaller.go 246-256).  The external profile store
(`readProfiles`) is a parameter: `none` when listing fails, otherwise the
valid-key predicate.  Result is the error message, or `none` on success. -/
def checkProfile (validProfiles : Option (GoStr → Bool))
    (profileKey profile : GoStr) : Option GoStr :=
  match validProfiles with
  | none => some (str "cannot list profile")
  | some ps =>
    if ps profileKey then none else some (str "unsupported profile " ++ profile)

/-- `BeforeRenderer` (helminstaller.go 103-128): default an empty profile to
`version=<minimum supported version>`, reject a profile that does not split
into at least two `=`-separated parts, check the key against the profile
store (rewrapping its error), dispatch key-specific handling (rewrapping its
error), then rebuild the flag values.  `none` is the merger panic. -/
def BeforeRenderer (validProfiles : Option (GoStr → Bool))
    (minVersion : GoStr) (cu : KubeCloudHelmInstTool) :
    Option (Except GoStr KubeCloudHelmInstTool) :=
  let cu := if cu.Profile = [] then
    { cu with Profile := versionProfileKey ++ '=' :: minVersion } else cu
  let p := splitGo '=' cu.Profile
  if p.length < 2 then
    some (Except.error (str "invalid profile " ++ cu.Profile))
  else
    let cu := { cu with ProfileKey := p.headD [] }
    match checkProfile validProfiles cu.ProfileKey cu.Profile with
    | some _ => some (Except.error (str "invalid profile " ++ cu.Profile))
    | none =>
      match handleProfile minVersion cu.ProfileKey cu.Sets (p.getD 1 []) with
      | Except.error _ =>
        some (Except.error (str "can not handle profile " ++ cu.Profile))
      | Except.ok (sets1, _) =>
        match rebuildFlagVals { cu with Sets := sets1 } with
        | none => none
        | some cu2 => some (Except.ok cu2)

/-- `combineProfVals` (helminstaller.go 342-361): load the raw profile
values for the key from the external store, unmarshal them into a value
tree, then fold every `--set` expression into the tree with the external
`strvals.ParseInto`.  The three collaborators are parameters; `none` is any
of their failures. -/
def combineProfVals {V : Type} (loadValues : GoStr → Option GoStr)
    (unmarshal : GoStr → Option V) (parseInto : GoStr → V → Option V)
    (cu : KubeCloudHelmInstTool) : Option V :=
  (loadValues cu.ProfileKey).bind fun raw =>
    (unmarshal raw).bind fun m =>
      cu.Sets.foldlM (fun acc s => parseInto s acc) m

/-- True when the materialization result is a non-panicking success. -/
def isOkSome {E A : Type} : Option (Except E A) → Bool
  | some (Except.ok _) => true
  | _ => false

/-- True when the materialization result is a non-panicking error. -/
def isErrSome {E A : Type} : Option (Except E A) → Bool
  | some (Except.error _) => true
  | _ => false

theorem takeUntil_append (c : Char) (p q : GoStr) (h : c ∈ p) :
    takeUntil c (p ++ q) = takeUntil c p := by
  induction p with
  | nil => simp at h
  | cons x xs ih =>
    by_cases hx : x = c
    · simp [takeUntil, hx]
    · have hxs : c ∈ xs := by
        rcases List.mem_cons.mp h with h' | h'
        · exact absurd h'.symm hx
        · exact h'
      simp [takeUntil, hx, ih hxs]

theorem synth_set_ok (p x : GoStr) (hp : '=' ∈ p) (hne : takeUntil '=' p ≠ []) :
    '=' ∈ p ++ x ∧ pathOf (p ++ x) ≠ [] := by
  constructor
  · exact List.mem_append_left x hp
  · rw [pathOf, takeUntil_append '=' p x hp]
    exact hne

/-- The success condition of the `version` profile check: the value is not
`v`-prefixed, or it parses and is not below the minimum. -/
def versionValueOk (minVersion v : GoStr) : Bool :=
  if v ≠ trimPrefixGo v (str "v") then
    match parseSemver (trimPrefixGo v (str "v")) with
    | none => false
    | some ver => !ltVer ver (minSemOf minVersion)
  else true

theorem handleProfile_ok (minV key : GoStr) (sets : List GoStr) (v : GoStr)
    (h : key = versionProfileKey → versionValueOk minV v = true) :
    ∃ r, handleProfile minV key sets v = Except.ok r ∧
      ∀ s' ∈ r.1, s' ∈ sets ∨ ('=' ∈ s' ∧ pathOf s' ≠ []) := by
  by_cases hk : key = versionProfileKey
  · have hv := h hk
    unfold handleProfile
    rw [if_pos hk]
    by_cases hne : v ≠ trimPrefixGo v (str "v")
    · rw [if_pos hne]
      cases hp : parseSemver (trimPrefixGo v (str "v")) with
      | none =>
        exfalso
        unfold versionValueOk at hv
        rw [if_pos hne, hp] at hv
        exact Bool.false_ne_true hv
      | some ver =>
        have hlt : ltVer ver (minSemOf minV) = false := by
          unfold versionValueOk at hv
          rw [if_pos hne, hp] at hv
          simpa using hv
        simp only [hlt, Bool.false_eq_true, if_false]
        refine ⟨_, rfl, ?_⟩
        intro s' hs'
        rcases List.mem_append.mp hs' with h' | h'
        · exact Or.inl h'
        · rcases List.mem_cons.mp h' with rfl | h''
          · exact Or.inr (synth_set_ok (str "cloudCore.image.tag=v") _
              (by decide) (by decide))
          · rw [List.mem_singleton] at h''
            rw [h'']
            exact Or.inr (synth_set_ok (str "iptablesManager.image.tag=v") _
              (by decide) (by decide))
    · rw [if_neg hne]
      refine ⟨_, rfl, ?_⟩
      intro s' hs'
      rcases List.mem_append.mp hs' with h' | h'
      · exact Or.inl h'
      · rcases List.mem_cons.mp h' with rfl | h''
        · exact Or.inr (synth_set_ok (str "cloudCore.image.tag=") _
            (by decide) (by decide))
        · rw [List.mem_singleton] at h''
          rw [h'']
          exact Or.inr (synth_set_ok (str "iptablesManager.image.tag=") _
            (by decide) (by decide))
  · unfold handleProfile
    rw [if_neg hk]
    by_cases hk2 : key = iptablesMgrProfileKey
    · rw [if_pos hk2]
      by_cases hm : v = internalIptablesMgrMode ∨ v = externalIptablesMgrMode
      · rw [if_pos hm]
        refine ⟨_, rfl, ?_⟩
        intro s' hs'
        rcases List.mem_append.mp hs' with h' | h'
        · exact Or.inl h'
        · rw [List.mem_singleton] at h'
          rw [h']
          exact Or.inr (synth_set_ok (str "iptablesManager.mode=") _
            (by decide) (by decide))
      · rw [if_neg hm]
        exact ⟨_, rfl, fun s' hs' => Or.inl hs'⟩
    · rw [if_neg hk2]
      exact ⟨_, rfl, fun s' hs' => Or.inl hs'⟩

theorem foldlM_option_isSome {V : Type} (f : GoStr → V → Option V)
    (hf : ∀ s m, f s m ≠ none) (l : List GoStr) :
    ∀ m : V, ∃ t, l.foldlM (fun acc s => f s acc) m = some t := by
  induction l with
  | nil => intro m; exact ⟨m, rfl⟩
  | cons s rest ih =>
    intro m
    cases hm : f s m with
    | none => exact absurd hm (hf s m)
    | some m' =>
      obtain ⟨t, ht⟩ := ih m'
      refine ⟨t, ?_⟩
      rw [List.foldlM_cons, hm]
      simpa using ht

/-- Claim C7, counterexample: the empty profile expression splits into fewer
than two `=`-separated parts, yet resolution does not fail with the invalid
profile-format error: `BeforeRenderer` first replaces an empty profile by
the default `version=<minimum supported version>` profile and succeeds. -/
theorem beforeRenderer_claim_counterexample :
    (splitGo '=' ([] : GoStr)).length < 2
    ∧ isOkSome (BeforeRenderer (some fun k => k == versionProfileKey)
        (str "v1.9.0") (initCloudTool [])) = true :=
  ⟨by decide, by decide⟩

/-- Claim C7 (amended): every non-empty profile expression that does not
split into at least two `=`-separated parts fails `BeforeRenderer` with the
invalid-profile (format) error — the empty expression is instead replaced by
the default `version=<minimum supported version>` profile first — and every
expression whose key is not in the valid-key set returned by the profile
store fails `checkProfile` with the unsupported-profile error (which
`BeforeRenderer` then rewraps as an invalid-profile error). -/
theorem beforeRenderer_errors_amended :
    (∀ (ps : Option (GoStr → Bool)) (minV : GoStr)
      (cu : KubeCloudHelmInstTool), cu.Profile ≠ [] →
      (splitGo '=' cu.Profile).length < 2 →
      BeforeRenderer ps minV cu =
        some (Except.error (str "invalid profile " ++ cu.Profile)))
    ∧ (∀ (ps : GoStr → Bool) (key profile : GoStr), ps key = false →
      checkProfile (some ps) key profile =
        some (str "unsupported profile " ++ profile)) := by
  constructor
  · intro ps minV cu h0 h1
    unfold BeforeRenderer
    rw [if_neg h0, if_pos h1]
  · intro ps key profile h
    simp [checkProfile, h]

/-- Witness for the amended C7: the malformed profile `abc` fails with the
invalid-profile error, and an unknown key fails the check with the
unsupported-profile error. -/
theorem beforeRenderer_errors_amended_witness :
    BeforeRenderer none (str "v1.9.0") (initCloudTool (str "abc")) =
      some (Except.error (str "invalid profile " ++ str "abc"))
    ∧ checkProfile (some fun k => k == versionProfileKey) (str "bogusKey")
        (str "bogusKey=1") =
      some (str "unsupported profile " ++ str "bogusKey=1") :=
  ⟨beforeRenderer_errors_amended.1 none (str "v1.9.0")
      (initCloudTool (str "abc")) (by decide) (by decide),
    beforeRenderer_errors_amended.2 (fun k => k == versionProfileKey)
      (str "bogusKey") (str "bogusKey=1") (by decide)⟩

/-- Claim C8, counterexample: `version=v1.0.0` is a well-formed `key=value`
profile string whose key is in the valid-key set, yet with minimum supported
version `v1.3.0` resolution returns an error (the unsupported-version
failure of `handleProfile`, rewrapped by `BeforeRenderer`). -/
theorem resolve_valid_key_counterexample :
    ¬ (splitGo '=' (str "version=v1.0.0")).length < 2
    ∧ ((splitGo '=' (str "version=v1.0.0")).headD [] == versionProfileKey)
        = true
    ∧ isErrSome (BeforeRenderer (some fun k => k == versionProfileKey)
        (str "v1.3.0") (initCloudTool (str "version=v1.0.0"))) = true :=
  ⟨by decide, by decide, by decide⟩

theorem BeforeRenderer_ok_steps (ps : GoStr → Bool) (minV : GoStr)
    (cu : KubeCloudHelmInstTool) (r1 : List GoStr) (r2 : GoStr)
    (out : List GoStr) (h0 : cu.Profile ≠ [])
    (h1 : ¬(splitGo '=' cu.Profile).length < 2)
    (h2 : ps ((splitGo '=' cu.Profile).headD []) = true)
    (hr : handleProfile minV ((splitGo '=' cu.Profile).headD []) cu.Sets
      ((splitGo '=' cu.Profile).getD 1 []) = Except.ok (r1, r2))
    (hm : mergeSets (r1 ++ flagSets
      { cu with ProfileKey := (splitGo '=' cu.Profile).headD [], Sets := r1 })
      = some out) :
    ∃ cu', BeforeRenderer (some ps) minV cu = some (Except.ok cu')
      ∧ cu'.ProfileKey = (splitGo '=' cu.Profile).headD []
      ∧ cu'.Sets = out := by
  have hcp : checkProfile (some ps) ((splitGo '=' cu.Profile).headD [])
      cu.Profile = none := by
    simp only [checkProfile]
    rw [if_pos h2]
  unfold BeforeRenderer
  rw [if_neg h0, if_neg h1]
  simp only [hcp, hr, rebuildFlagVals, hm, Option.map_some']
  exact ⟨_, rfl, rfl, rfl⟩

/-- Claim C8 (amended): for every well-formed `key=value` profile string
whose key is in the valid-key set, resolution never returns an error and —
when the external profile store, YAML unmarshalling and `--set` parsing all
succeed — produces a base value tree, except when the key is `version` and
the value is `v`-prefixed but unparseable or below the minimum supported
version (in which case `handleProfile`, hence resolution, errors). -/
theorem resolve_valid_key_amended {V : Type} (ps : GoStr → Bool)
    (minV profile : GoStr) (loadValues : GoStr → Option GoStr)
    (unmarshal : GoStr → Option V) (parseInto : GoStr → V → Option V)
    (h1 : ¬(splitGo '=' profile).length < 2)
    (h2 : ps ((splitGo '=' profile).headD []) = true)
    (h3 : (splitGo '=' profile).headD [] = versionProfileKey →
      versionValueOk minV ((splitGo '=' profile).getD 1 []) = true)
    (h4 : ∀ k, loadValues k ≠ none) (h5 : ∀ r, unmarshal r ≠ none)
    (h6 : ∀ s m, parseInto s m ≠ none) :
    ∃ cu', BeforeRenderer (some ps) minV (initCloudTool profile) =
        some (Except.ok cu')
      ∧ ∃ t, combineProfVals loadValues unmarshal parseInto cu' = some t := by
  have h0 : profile ≠ [] := by
    rintro rfl
    exact h1 (by decide)
  obtain ⟨r, hr, hrsets⟩ := handleProfile_ok minV
    ((splitGo '=' profile).headD []) [] ((splitGo '=' profile).getD 1 []) h3
  obtain ⟨r1, r2⟩ := r
  have hkeep : ∀ s ∈ r1, '=' ∈ s → pathOf s ≠ [] := by
    intro s hs _
    rcases hrsets s hs with h' | h'
    · exact absurd h' (List.not_mem_nil s)
    · exact h'.2
  obtain ⟨out, hout, _, _, _, _, _⟩ := mergeSets_sound r1 hkeep
  have hflag : flagSets { initCloudTool profile with
      ProfileKey := (splitGo '=' profile).headD [], Sets := r1 } = [] := rfl
  have hm : mergeSets (r1 ++ flagSets { initCloudTool profile with
      ProfileKey := (splitGo '=' profile).headD [], Sets := r1 }) = some out := by
    rw [hflag, List.append_nil]
    exact hout
  obtain ⟨cu', hbr, hpk, hsets⟩ := BeforeRenderer_ok_steps ps minV
    (initCloudTool profile) r1 r2 out h0 h1 h2 hr hm
  obtain ⟨raw, hl⟩ := Option.ne_none_iff_exists'.mp (h4 cu'.ProfileKey)
  obtain ⟨m, hu⟩ := Option.ne_none_iff_exists'.mp (h5 raw)
  obtain ⟨t, ht⟩ := foldlM_option_isSome parseInto h6 cu'.Sets m
  refine ⟨cu', hbr, t, ?_⟩
  unfold combineProfVals
  rw [Option.bind_eq_some]
  refine ⟨raw, hl, ?_⟩
  rw [Option.bind_eq_some]
  exact ⟨m, hu, ht⟩

/-- Witness for the amended C8 at the well-formed, valid-key profile
`version=v1.5.0` with minimum `v1.3.0` and succeeding external
collaborators. -/
theorem resolve_valid_key_amended_witness :
    ∃ cu', BeforeRenderer (some fun k => k == versionProfileKey)
        (str "v1.3.0") (initCloudTool (str "version=v1.5.0")) =
        some (Except.ok cu')
      ∧ ∃ t, combineProfVals (fun _ => some []) (fun _ => some (0 : Nat))
          (fun _ m => some m) cu' = some t :=
  resolve_valid_key_amended (fun k => k == versionProfileKey) (str "v1.3.0")
    (str "version=v1.5.0") (fun _ => some []) (fun _ => some 0)
    (fun _ m => some m) (by decide) (by decide) (fun _ => by decide)
    (fun k => by simp) (fun r => by simp) (fun s m => by simp)

/- ### Edge Config Materializer (`createEdgeConfigFiles`, two variants:
src/unnamed/part_000 96-172 and helminstaller.go second document 461-550) -/

/-- A Kubernetes taint (only the fields the materializer sets). -/
structure Taint where
  Key : GoStr
  Effect : GoStr
  deriving DecidableEq

/-- The fields of the edge core configuration written by the materializer.
The remaining fields of the external `v1alpha1.EdgeCoreConfig` are never
touched and stay at their defaults. -/
structure EdgeConfig where
  WebSocketServer : GoStr
  HTTPServer : GoStr
  QuicServer : GoStr
  TunnelServer : GoStr
  HostnameOverride : GoStr
  NodeIP : GoStr
  RuntimeType : GoStr
  CGroupDriver : GoStr
  RemoteRuntimeEndpoint : GoStr
  RemoteImageEndpoint : GoStr
  Token : GoStr
  Taints : List Taint
  Labels : List (GoStr × GoStr)
  deriving DecidableEq

/-- The fields of the Go `KubeEdgeInstTool` consumed by the materializer
(the remaining fields only feed external collaborators: certificate path,
tarball path, region, config path). -/
structure KubeEdgeInstTool where
  CloudCoreIP : GoStr
  EdgeNodeName : GoStr
  EdgeNodeIP : GoStr
  RuntimeType : GoStr
  RemoteRuntimeEndpoint : GoStr
  Token : GoStr
  CertPort : GoStr
  QuicPort : GoStr
  TunnelPort : GoStr
  CGroupDriver : GoStr
  HasDefaultTaint : Bool
  Labels : List GoStr
  deriving DecidableEq

/-- Modelled from the spec: `v1alpha1.CGroupDriverSystemd` (external). -/
def cgroupDriverSystemd : GoStr := str "systemd"

/-- Modelled from the spec: `v1alpha1.CGroupDriverCGroupFS` (external). -/
def cgroupDriverCGroupFS : GoStr := str "cgroupfs"

/-- Modelled from the spec: `constants.DefaultTunnelPort` (outside `src/`);
the spec's defaulting rules give the tunnel port as `10004`. -/
def defaultTunnelPort : Nat := 10004

/-- The taint appended when the default-taint flag is set. -/
def defaultEdgeTaint : Taint :=
  { Key := str "node-role.kubernetes.io/edge", Effect := str "NoSchedule" }

/-- Go `net.JoinHostPort` (external): bracket the host only when it contains
a colon. -/
def joinHostPort (host port : GoStr) : GoStr :=
  if ':' ∈ host then '[' :: host ++ (']' :: ':' :: port)
  else host ++ str ":" ++ port

/-- Assignment into a Go `map[string]string`, embedded as an association
list: overwrite the entry for the key if present, else append. -/
def mapInsert : List (GoStr × GoStr) → GoStr → GoStr → List (GoStr × GoStr)
  | [], k, v => [(k, v)]
  | (k', v') :: rest, k, v =>
    if k' = k then (k, v) :: rest else (k', v') :: mapInsert rest k v

/-- The label loop of `createEdgeConfigFiles`: each label token is split on
`=`; the key is segment 0 and the value segment 1, whose access
`strings.Split(label, "=")[1]` is an index-out-of-range panic (`none`) for a
token without `=`. -/
def labelsFold (acc : List (GoStr × GoStr)) :
    List GoStr → Option (List (GoStr × GoStr))
  | [] => some acc
  | l :: rest =>
    match (splitGo '=' l)[1]? with
    | none => none
    | some v => labelsFold (mapInsert acc ((splitGo '=' l).headD []) v) rest

/-- The cgroup-driver switch of `createEdgeConfigFiles` (part_000 115-124 /
helminstaller.go 510-519): an empty driver is left alone, `systemd` and
`cgroupfs` are set, anything else is the unsupported-driver error. -/
def setCGroupDriver (c : EdgeConfig) (d : GoStr) : Except GoStr EdgeConfig :=
  if d = [] then Except.ok c
  else if d = cgroupDriverSystemd then
    Except.ok { c with CGroupDriver := cgroupDriverSystemd }
  else if d = cgroupDriverCGroupFS then
    Except.ok { c with CGroupDriver := cgroupDriverCGroupFS }
  else Except.error (str "unsupported CGroupDriver: " ++ d)

/-- The label loop shared by both `createEdgeConfigFiles` variants: applied
only when at least one label token is supplied; `none` is the
index-out-of-range panic on a token without `=`. -/
def labelsStep (c : EdgeConfig) (labels : List GoStr) :
    Option (Except GoStr EdgeConfig) :=
  if 1 ≤ labels.length then
    match labelsFold [] labels with
    | none => none
    | some m => some (Except.ok { c with Labels := m })
  else some (Except.ok c)

/-- src/unnamed/part_000 103-114: websocket server and the identity fields
set before the cgroup switch. -/
def edgeBase (defCfg : EdgeConfig) (ku : KubeEdgeInstTool) : EdgeConfig :=
  let c := { defCfg with WebSocketServer := ku.CloudCoreIP }
  let c := if ku.EdgeNodeName ≠ [] then
    { c with HostnameOverride := ku.EdgeNodeName } else c
  let c := if ku.EdgeNodeIP ≠ [] then { c with NodeIP := ku.EdgeNodeIP } else c
  if ku.RuntimeType ≠ [] then { c with RuntimeType := ku.RuntimeType } else c

/-- src/unnamed/part_000 126-156: the fields set after the cgroup switch, in
source order: runtime endpoints, token, HTTP / QUIC / tunnel servers
(explicit port or defaults 10002 / 10001 / 10004 on the host before the
first `:` of the cloud-core address), default taint. -/
def edgeServers (c0 : EdgeConfig) (ku : KubeEdgeInstTool) : EdgeConfig :=
  let c := if ku.RemoteRuntimeEndpoint ≠ [] then
    { c0 with
        RemoteRuntimeEndpoint := ku.RemoteRuntimeEndpoint,
        RemoteImageEndpoint := ku.RemoteRuntimeEndpoint } else c0
  let c := if ku.Token ≠ [] then { c with Token := ku.Token } else c
  let http := if ku.CertPort ≠ [] then
    str "https://" ++ takeUntil ':' ku.CloudCoreIP ++ str ":" ++ ku.CertPort
    else str "https://" ++ takeUntil ':' ku.CloudCoreIP ++ str ":10002"
  let c := { c with HTTPServer := http }
  let quic := if ku.QuicPort ≠ [] then
    takeUntil ':' ku.CloudCoreIP ++ str ":" ++ ku.QuicPort
    else takeUntil ':' ku.CloudCoreIP ++ str ":10001"
  let c := { c with QuicServer := quic }
  let tunnel := if ku.TunnelPort ≠ [] then
    takeUntil ':' ku.CloudCoreIP ++ str ":" ++ ku.TunnelPort
    else takeUntil ':' ku.CloudCoreIP ++ str ":10004"
  let c := { c with TunnelServer := tunnel }
  if ku.HasDefaultTaint then
    { c with Taints := c.Taints ++ [defaultEdgeTaint] } else c

/-- The config-assembly part of `createEdgeConfigFiles`
(src/unnamed/part_000 103-166), in source order: identity fields, cgroup
driver (may error), endpoint and server fields, labels (may panic).
`defCfg` is the external `NewDefaultEdgeCoreConfig()`. -/
def assembleEdgeConfig (defCfg : EdgeConfig) (ku : KubeEdgeInstTool) :
    Option (Except GoStr EdgeConfig) :=
  match setCGroupDriver (edgeBase defCfg ku) ku.CGroupDriver with
  | Except.error e => some (Except.error e)
  | Except.ok c => labelsStep (edgeServers c ku) ku.Labels

/-- helminstaller.go second document, 468-508: in the second variant the
identity fields, the HTTP / QUIC / tunnel servers and the default taint are
all set before the cgroup switch. -/
def edgeBaseBeta (defCfg : EdgeConfig) (ku : KubeEdgeInstTool) : EdgeConfig :=
  let c := { defCfg with WebSocketServer := ku.CloudCoreIP }
  let c := if ku.EdgeNodeName ≠ [] then
    { c with HostnameOverride := ku.EdgeNodeName } else c
  let c := if ku.EdgeNodeIP ≠ [] then { c with NodeIP := ku.EdgeNodeIP } else c
  let c := if ku.RuntimeType ≠ [] then
    { c with RuntimeType := ku.RuntimeType } else c
  let http := if ku.CertPort ≠ [] then
    str "https://" ++ takeUntil ':' ku.CloudCoreIP ++ str ":" ++ ku.CertPort
    else str "https://" ++ takeUntil ':' ku.CloudCoreIP ++ str ":10002"
  let c := { c with HTTPServer := http }
  let quic := if ku.QuicPort ≠ [] then
    takeUntil ':' ku.CloudCoreIP ++ str ":" ++ ku.QuicPort
    else takeUntil ':' ku.CloudCoreIP ++ str ":10001"
  let c := { c with QuicServer := quic }
  let tunnel := if ku.TunnelPort ≠ [] then
    takeUntil ':' ku.CloudCoreIP ++ str ":" ++ ku.TunnelPort
    else takeUntil ':' ku.CloudCoreIP ++ str ":10004"
  let c := { c with TunnelServer := tunnel }
  if ku.HasDefaultTaint then
    { c with Taints := c.Taints ++ [defaultEdgeTaint] } else c

/-- helminstaller.go second document, 521-534: after the cgroup switch the
second variant sets the runtime endpoints and token, recomputes the HTTP
server, and unconditionally overwrites the tunnel server with
`net.JoinHostPort(host, constants.DefaultTunnelPort)`. -/
def edgeServersBeta (c0 : EdgeConfig) (ku : KubeEdgeInstTool) : EdgeConfig :=
  let c := if ku.RemoteRuntimeEndpoint ≠ [] then
    { c0 with
        RemoteRuntimeEndpoint := ku.RemoteRuntimeEndpoint,
        RemoteImageEndpoint := ku.RemoteRuntimeEndpoint } else c0
  let c := if ku.Token ≠ [] then { c with Token := ku.Token } else c
  let cloudCoreIP := takeUntil ':' ku.CloudCoreIP
  let http2 := if ku.CertPort ≠ [] then
    str "https://" ++ cloudCoreIP ++ str ":" ++ ku.CertPort
    else str "https://" ++ cloudCoreIP ++ str ":10002"
  let c := { c with HTTPServer := http2 }
  { c with TunnelServer := joinHostPort cloudCoreIP (natStr defaultTunnelPort) }

/-- The config-assembly part of the second `createEdgeConfigFiles` variant
(helminstaller.go second document, 461-549): identity and server fields,
cgroup driver (may error), endpoint fields and server overwrites, labels
(may panic). -/
def assembleEdgeConfigBeta (defCfg : EdgeConfig) (ku : KubeEdgeInstTool) :
    Option (Except GoStr EdgeConfig) :=
  match setCGroupDriver (edgeBaseBeta defCfg ku) ku.CGroupDriver with
  | Except.error e => some (Except.error e)
  | Except.ok c => labelsStep (edgeServersBeta c ku) ku.Labels

/-- Modelled from the spec: `util.SpliceErrors` (outside `src/`) — all
validator messages concatenated into one error. -/
def spliceErrors (msgs : List GoStr) : GoStr :=
  List.intercalate (str "\n") msgs

/-- Outcome of one materialization: the returned error, if any, and the
configuration passed to `Write2File`, if the write step was reached. -/
structure MatResult where
  err : Option GoStr
  wrote : Option EdgeConfig
  deriving DecidableEq

/-- `createEdgeConfigFiles` (src/unnamed/part_000 96-172): create the config
directory (external, `mkdirOk`), assemble the config, validate it with the
external validator, and only on an empty error list hand the config to
`Write2File` (external, its result `writeErr`). -/
def createEdgeConfigFiles (validate : EdgeConfig → List GoStr)
    (mkdirOk : Bool) (writeErr : Option GoStr) (defCfg : EdgeConfig)
    (ku : KubeEdgeInstTool) : Option MatResult :=
  if !mkdirOk then
    some { err := some (str "not able to create the config folder path"), wrote := none }
  else
    match assembleEdgeConfig defCfg ku with
    | none => none
    | some (Except.error e) => some { err := some e, wrote := none }
    | some (Except.ok cfg) =>
      let errs := validate cfg
      if errs.length > 0 then
        some { err := some (spliceErrors errs), wrote := none }
      else
        some { err := writeErr, wrote := some cfg }

theorem labelsFold_isSome (ls : List GoStr) :
    ∀ acc, (∀ l ∈ ls, '=' ∈ l) → ∃ m, labelsFold acc ls = some m := by
  induction ls with
  | nil => exact fun acc _ => ⟨acc, rfl⟩
  | cons l rest ih =>
    intro acc h
    have hl : '=' ∈ l := h l (List.mem_cons_self l rest)
    have hlen : 1 < (splitGo '=' l).length := by
      have h2 : ¬(splitGo '=' l).length < 2 :=
        fun hc => ((splitGo_length_lt_two '=' l).mp hc) hl
      omega
    have hsome : (splitGo '=' l)[1]? = some ((splitGo '=' l)[1]) :=
      List.getElem?_eq_getElem hlen
    obtain ⟨m, hm⟩ := ih
      (mapInsert acc ((splitGo '=' l).headD []) ((splitGo '=' l)[1]))
      (fun x hx => h x (List.mem_cons_of_mem l hx))
    exact ⟨m, by simp only [labelsFold, hsome]; exact hm⟩

theorem labelsFold_none (ls : List GoStr) :
    ∀ acc, (∃ l ∈ ls, '=' ∉ l) → labelsFold acc ls = none := by
  induction ls with
  | nil =>
    intro acc h
    obtain ⟨l, hl, _⟩ := h
    exact absurd hl (List.not_mem_nil l)
  | cons l rest ih =>
    intro acc h
    by_cases hl : '=' ∈ l
    · obtain ⟨b, hb, hbne⟩ := h
      have hbrest : b ∈ rest := by
        rcases List.mem_cons.mp hb with rfl | h'
        · exact absurd hl hbne
        · exact h'
      have hlen : 1 < (splitGo '=' l).length := by
        have h2 : ¬(splitGo '=' l).length < 2 :=
          fun hc => ((splitGo_length_lt_two '=' l).mp hc) hl
        omega
      have hsome : (splitGo '=' l)[1]? = some ((splitGo '=' l)[1]) :=
        List.getElem?_eq_getElem hlen
      simp only [labelsFold, hsome]
      exact ih _ ⟨b, hbrest, hbne⟩
    · have hlen : (splitGo '=' l).length < 2 :=
        (splitGo_length_lt_two '=' l).mpr hl
      have hnone : (splitGo '=' l)[1]? = none :=
        List.getElem?_eq_none (by omega)
      simp only [labelsFold, hnone]

theorem setCGroupDriver_ok (c : EdgeConfig) {d : GoStr}
    (h : d = [] ∨ d = cgroupDriverSystemd ∨ d = cgroupDriverCGroupFS) :
    ∃ c', setCGroupDriver c d = Except.ok c'
      ∧ c'.HTTPServer = c.HTTPServer ∧ c'.QuicServer = c.QuicServer
      ∧ c'.TunnelServer = c.TunnelServer := by
  rcases h with rfl | rfl | rfl
  · exact ⟨c, rfl, rfl, rfl, rfl⟩
  · refine ⟨{ c with CGroupDriver := cgroupDriverSystemd }, ?_, rfl, rfl, rfl⟩
    unfold setCGroupDriver
    rw [if_neg (by decide), if_pos rfl]
  · refine ⟨{ c with CGroupDriver := cgroupDriverCGroupFS }, ?_, rfl, rfl, rfl⟩
    unfold setCGroupDriver
    rw [if_neg (by decide), if_neg (by decide), if_pos rfl]

theorem setCGroupDriver_ne_error {d : GoStr}
    (h : d = [] ∨ d = cgroupDriverSystemd ∨ d = cgroupDriverCGroupFS)
    (c : EdgeConfig) (e : GoStr) : setCGroupDriver c d ≠ Except.error e := by
  obtain ⟨c', hc', _⟩ := setCGroupDriver_ok c h
  rw [hc']
  intro hcontra
  exact Except.noConfusion hcontra

theorem joinHostPort_default (s : GoStr) :
    joinHostPort (takeUntil ':' s) (natStr defaultTunnelPort) =
      takeUntil ':' s ++ str ":10004" := by
  unfold joinHostPort
  rw [if_neg (not_mem_takeUntil ':' s), List.append_assoc]
  congr 1

theorem isOkSome_iff {E A : Type} (o : Option (Except E A)) :
    isOkSome o = true ↔ ∃ a, o = some (Except.ok a) := by
  cases o with
  | none => simp [isOkSome]
  | some v =>
    cases v with
    | error e => simp [isOkSome]
    | ok a => simp [isOkSome]

/-- An all-empty default configuration, standing in for the external
`NewDefaultEdgeCoreConfig()` in concrete witnesses. -/
def zeroEdgeConfig : EdgeConfig :=
  { WebSocketServer := [], HTTPServer := [], QuicServer := [],
    TunnelServer := [], HostnameOverride := [], NodeIP := [],
    RuntimeType := [], CGroupDriver := [], RemoteRuntimeEndpoint := [],
    RemoteImageEndpoint := [], Token := [], Taints := [], Labels := [] }

/-- The edge tool of the claim's example: only the cloud-core address
`1.2.3.4:8080` is supplied. -/
def edgeTool1234 : KubeEdgeInstTool :=
  { CloudCoreIP := str "1.2.3.4:8080", EdgeNodeName := [], EdgeNodeIP := [],
    RuntimeType := [], RemoteRuntimeEndpoint := [], Token := [],
    CertPort := [], QuicPort := [], TunnelPort := [], CGroupDriver := [],
    HasDefaultTaint := false, Labels := [] }

theorem setCGroupDriver_preserves {c c' : EdgeConfig} {d : GoStr}
    (h : setCGroupDriver c d = Except.ok c') :
    c'.HTTPServer = c.HTTPServer ∧ c'.QuicServer = c.QuicServer
      ∧ c'.TunnelServer = c.TunnelServer := by
  unfold setCGroupDriver at h
  split at h
  · obtain rfl := Except.ok.inj h
    exact ⟨rfl, rfl, rfl⟩
  · split at h
    · obtain rfl := Except.ok.inj h
      exact ⟨rfl, rfl, rfl⟩
    · split at h
      · obtain rfl := Except.ok.inj h
        exact ⟨rfl, rfl, rfl⟩
      · exact absurd h (fun hc => Except.noConfusion hc)

/-- Claim C3: with no explicit CertPort, QuicPort or TunnelPort, both
variants of the edge config materializer set the EdgeHub HTTP server to
`https://<host>:10002`, the QUIC server to `<host>:10001`, and the
EdgeStream tunnel server to `<host>:10004`, where `<host>` is the portion
of the supplied cloud-core address before the first `:` (in the second
variant the tunnel endpoint comes from joining the host with the shared
default tunnel-port constant, with the same result). -/
theorem edge_config_default_servers (defCfg : EdgeConfig)
    (ku : KubeEdgeInstTool) (h1 : ku.CertPort = []) (h2 : ku.QuicPort = [])
    (h3 : ku.TunnelPort = []) :
    (∀ cfg, assembleEdgeConfig defCfg ku = some (Except.ok cfg) →
      cfg.HTTPServer =
        str "https://" ++ takeUntil ':' ku.CloudCoreIP ++ str ":10002"
      ∧ cfg.QuicServer = takeUntil ':' ku.CloudCoreIP ++ str ":10001"
      ∧ cfg.TunnelServer = takeUntil ':' ku.CloudCoreIP ++ str ":10004")
    ∧ (∀ cfg, assembleEdgeConfigBeta defCfg ku = some (Except.ok cfg) →
      cfg.HTTPServer =
        str "https://" ++ takeUntil ':' ku.CloudCoreIP ++ str ":10002"
      ∧ cfg.QuicServer = takeUntil ':' ku.CloudCoreIP ++ str ":10001"
      ∧ cfg.TunnelServer = takeUntil ':' ku.CloudCoreIP ++ str ":10004") := by
  constructor
  · intro cfg hres
    unfold assembleEdgeConfig at hres
    split at hres
    · exact absurd hres (by simp)
    · unfold labelsStep at hres
      split at hres
      · split at hres
        · exact absurd hres (by simp)
        · simp only [Option.some.injEq, Except.ok.injEq] at hres
          subst hres
          refine ⟨?_, ?_, ?_⟩ <;>
            simp [edgeServers, h1, h2, h3, apply_ite EdgeConfig.HTTPServer,
              apply_ite EdgeConfig.QuicServer, apply_ite EdgeConfig.TunnelServer]
      · simp only [Option.some.injEq, Except.ok.injEq] at hres
        subst hres
        refine ⟨?_, ?_, ?_⟩ <;>
          simp [edgeServers, h1, h2, h3, apply_ite EdgeConfig.HTTPServer,
            apply_ite EdgeConfig.QuicServer, apply_ite EdgeConfig.TunnelServer]
  · intro cfg hres
    unfold assembleEdgeConfigBeta at hres
    split at hres
    · exact absurd hres (by simp)
    · next c' heq =>
      have hq : c'.QuicServer = (edgeBaseBeta defCfg ku).QuicServer :=
        (setCGroupDriver_preserves heq).2.1
      unfold labelsStep at hres
      split at hres
      · split at hres
        · exact absurd hres (by simp)
        · simp only [Option.some.injEq, Except.ok.injEq] at hres
          subst hres
          refine ⟨?_, ?_, ?_⟩ <;>
            simp [edgeServersBeta, edgeBaseBeta, h1, h2, h3, hq,
              joinHostPort_default, apply_ite EdgeConfig.HTTPServer,
              apply_ite EdgeConfig.QuicServer, apply_ite EdgeConfig.TunnelServer]
      · simp only [Option.some.injEq, Except.ok.injEq] at hres
        subst hres
        refine ⟨?_, ?_, ?_⟩ <;>
          simp [edgeServersBeta, edgeBaseBeta, h1, h2, h3, hq,
            joinHostPort_default, apply_ite EdgeConfig.HTTPServer,
            apply_ite EdgeConfig.QuicServer, apply_ite EdgeConfig.TunnelServer]

/-- Witness for C3 at cloud-core address `1.2.3.4:8080` with no explicit
ports: the materialized servers are `https://1.2.3.4:10002`,
`1.2.3.4:10001` and `1.2.3.4:10004`. -/
theorem edge_config_default_servers_witness :
    ∃ cfg, assembleEdgeConfig zeroEdgeConfig edgeTool1234 =
        some (Except.ok cfg)
      ∧ cfg.HTTPServer = str "https://1.2.3.4:10002"
      ∧ cfg.QuicServer = str "1.2.3.4:10001"
      ∧ cfg.TunnelServer = str "1.2.3.4:10004" := by
  have hs : isOkSome (assembleEdgeConfig zeroEdgeConfig edgeTool1234) = true := by
    decide
  obtain ⟨cfg, hres⟩ := (isOkSome_iff _).mp hs
  obtain ⟨hh, hq, ht⟩ :=
    (edge_config_default_servers zeroEdgeConfig edgeTool1234 rfl rfl rfl).1
      cfg hres
  refine ⟨cfg, hres, ?_, ?_, ?_⟩
  · rw [hh]; decide
  · rw [hq]; decide
  · rw [ht]; decide

/-- Claim C10: the label loop of both `createEdgeConfigFiles` variants
accesses `strings.Split(label, "=")[1]`, which is out of range for a label
token without `=`; assembly is total (never the panic branch) when every
label token contains `=`, and with a valid cgroup driver a label token
without `=` makes assembly hit the panic branch, so totality requires the
precondition that every label token contains `=`. -/
theorem edge_labels_totality :
    (∀ (defCfg : EdgeConfig) (ku : KubeEdgeInstTool),
      (∀ l ∈ ku.Labels, '=' ∈ l) →
      (assembleEdgeConfig defCfg ku).isSome = true
      ∧ (assembleEdgeConfigBeta defCfg ku).isSome = true)
    ∧ (∀ (defCfg : EdgeConfig) (ku : KubeEdgeInstTool),
      (ku.CGroupDriver = [] ∨ ku.CGroupDriver = cgroupDriverSystemd ∨
        ku.CGroupDriver = cgroupDriverCGroupFS) →
      (∃ l ∈ ku.Labels, '=' ∉ l) →
      assembleEdgeConfig defCfg ku = none
      ∧ assembleEdgeConfigBeta defCfg ku = none) := by
  constructor
  · intro defCfg ku h
    constructor
    · unfold assembleEdgeConfig
      split
      · rfl
      · unfold labelsStep
        split
        · obtain ⟨m, hm⟩ := labelsFold_isSome ku.Labels [] h
          rw [hm]
          rfl
        · rfl
    · unfold assembleEdgeConfigBeta
      split
      · rfl
      · unfold labelsStep
        split
        · obtain ⟨m, hm⟩ := labelsFold_isSome ku.Labels [] h
          rw [hm]
          rfl
        · rfl
  · intro defCfg ku hcg hbad
    have hlen : 1 ≤ ku.Labels.length := by
      obtain ⟨b, hb, _⟩ := hbad
      have := List.length_pos.mpr (List.ne_nil_of_mem hb)
      omega
    have hnone := labelsFold_none ku.Labels [] hbad
    constructor
    · unfold assembleEdgeConfig
      split
      · next e heq => exact absurd heq (setCGroupDriver_ne_error hcg _ e)
      · unfold labelsStep
        rw [if_pos hlen, hnone]
    · unfold assembleEdgeConfigBeta
      split
      · next e heq => exact absurd heq (setCGroupDriver_ne_error hcg _ e)
      · unfold labelsStep
        rw [if_pos hlen, hnone]

/-- Witness for C10: with the well-formed label `k=v` assembly succeeds;
with the label token `nolabel` (no `=`) it hits the panic branch. -/
theorem edge_labels_totality_witness :
    (assembleEdgeConfig zeroEdgeConfig
      { edgeTool1234 with Labels := [str "k=v"] }).isSome = true
    ∧ assembleEdgeConfig zeroEdgeConfig
      { edgeTool1234 with Labels := [str "nolabel"] } = none := by
  constructor
  · exact (edge_labels_totality.1 zeroEdgeConfig
      { edgeTool1234 with Labels := [str "k=v"] } (by decide)).1
  · exact (edge_labels_totality.2 zeroEdgeConfig
      { edgeTool1234 with Labels := [str "nolabel"] } (Or.inl rfl)
      ⟨str "nolabel", List.mem_singleton_self _, by decide⟩).1

/-- Claim C6: whenever a materialization runs to a result (no panic), a
configuration is handed to the writer only if the validator reported no
errors; and when the directory exists, assembly succeeded, and the
validator reports errors, the run returns the single error concatenating
all validator messages and nothing reaches the writer — validation is
strictly before the write and an invalid config is never persisted. -/
theorem validation_before_write (validate : EdgeConfig → List GoStr)
    (mkdirOk : Bool) (writeErr : Option GoStr) (defCfg : EdgeConfig)
    (ku : KubeEdgeInstTool) (r : MatResult)
    (hres : createEdgeConfigFiles validate mkdirOk writeErr defCfg ku = some r) :
    (∀ cfg, r.wrote = some cfg → validate cfg = [])
    ∧ (∀ cfg, mkdirOk = true →
        assembleEdgeConfig defCfg ku = some (Except.ok cfg) →
        validate cfg ≠ [] →
        r.err = some (spliceErrors (validate cfg)) ∧ r.wrote = none) := by
  unfold createEdgeConfigFiles at hres
  split at hres
  · next hmk =>
    obtain rfl := Option.some.inj hres
    constructor
    · intro cfg hc
      exact absurd hc (by simp)
    · intro cfg hmk2
      rw [hmk2] at hmk
      exact absurd hmk (by simp)
  · next hmk =>
    split at hres
    · exact absurd hres (by simp)
    · next e heq =>
      obtain rfl := Option.some.inj hres
      constructor
      · intro cfg hc
        exact absurd hc (by simp)
      · intro cfg _ has2
        rw [heq] at has2
        exact absurd has2 (by simp)
    · next cfg0 heq =>
      dsimp only at hres
      split at hres
      · next hv =>
        obtain rfl := Option.some.inj hres
        constructor
        · intro cfg hc
          exact absurd hc (by simp)
        · intro cfg _ has2 _
          rw [heq] at has2
          obtain rfl := Except.ok.inj (Option.some.inj has2)
          exact ⟨rfl, rfl⟩
      · next hv =>
        obtain rfl := Option.some.inj hres
        have hval : validate cfg0 = [] := by
          rw [← List.length_eq_zero]
          omega
        constructor
        · intro cfg hc
          obtain rfl := Option.some.inj hc
          exact hval
        · intro cfg _ has2 hvne
          rw [heq] at has2
          obtain rfl := Except.ok.inj (Option.some.inj has2)
          exact absurd hval hvne

/-- Witness for C6: with an always-failing validator, materialization of
the example edge tool returns the concatenated validator message and
nothing reaches the writer. -/
theorem validation_before_write_witness :
    ∃ r, createEdgeConfigFiles (fun _ => [str "bad config"]) true none
        zeroEdgeConfig edgeTool1234 = some r
      ∧ (∀ cfg, r.wrote = some cfg → (fun _ => [str "bad config"]) cfg = [])
      ∧ r.err = some (spliceErrors [str "bad config"]) ∧ r.wrote = none := by
  have hs : isOkSome (assembleEdgeConfig zeroEdgeConfig edgeTool1234) = true := by
    decide
  obtain ⟨cfg, hcfg⟩ := (isOkSome_iff _).mp hs
  have hres : createEdgeConfigFiles (fun _ => [str "bad config"]) true none
      zeroEdgeConfig edgeTool1234 =
      some { err := some (spliceErrors [str "bad config"]), wrote := none } := by
    unfold createEdgeConfigFiles
    rw [hcfg]
    simp
  have h := validation_before_write (fun _ => [str "bad config"]) true none
    zeroEdgeConfig edgeTool1234
    { err := some (spliceErrors [str "bad config"]), wrote := none } hres
  refine ⟨_, hres, h.1, ?_⟩
  exact h.2 cfg rfl hcfg (by simp)

/- ### Version fetch with bounded retry (`AddInitBeta2ToolsList`,
init-beta.go 130-174) -/

/-- The retry loop of `AddInitBeta2ToolsList` (init-beta.go 133-144):
`attempt` is the external `util.GetLatestVersion` (`none` is its error),
indexed by loop iteration; the loop continues on error or on an empty
version, and breaks on the first non-empty version.  Returns the version it
broke on, if any, together with the number of network calls made. -/
def fetchLoop (attempt : Nat → Option GoStr) : Nat → Nat → Option GoStr × Nat
  | 0, _ => (none, 0)
  | n + 1, i =>
    match attempt i with
    | none =>
      let r := fetchLoop attempt n (i + 1)
      (r.1, r.2 + 1)
    | some v =>
      if v.length > 0 then (some v, 1)
      else
        let r := fetchLoop attempt n (i + 1)
        (r.1, r.2 + 1)

/-- The version selection of `AddInitBeta2ToolsList` (init-beta.go
131-148): the `v`-trimmed fetched version when the loop broke, else the
hardcoded default (`types.DefaultKubeEdgeVersion`, outside `src/`, kept as
a parameter), with the failure only printed.  This step is a total
function: the enclosing Go function returns no error from it. -/
def fetchKubeVer (retryTimes : Nat) (attempt : Nat → Option GoStr)
    (defaultVer : GoStr) : GoStr :=
  match (fetchLoop attempt retryTimes 0).1 with
  | some v => trimPrefixGo v (str "v")
  | none => defaultVer

theorem fetchLoop_calls_le (attempt : Nat → Option GoStr) :
    ∀ n i : Nat, (fetchLoop attempt n i).2 ≤ n := by
  intro n
  induction n with
  | zero => intro i; simp [fetchLoop]
  | succ n ih =>
    intro i
    unfold fetchLoop
    cases attempt i with
    | none => simpa using Nat.succ_le_succ (ih (i + 1))
    | some v =>
      by_cases hv : v.length > 0
      · simp [hv]
      · simpa [hv] using Nat.succ_le_succ (ih (i + 1))

theorem fetchLoop_all_fail (attempt : Nat → Option GoStr) :
    ∀ n i : Nat,
    (∀ j, i ≤ j → j < i + n → attempt j = none ∨ attempt j = some []) →
    fetchLoop attempt n i = (none, n) := by
  intro n
  induction n with
  | zero => intro i _; rfl
  | succ n ih =>
    intro i h
    have hrec := ih (i + 1) (fun j h1 h2 => h j (by omega) (by omega))
    have hi := h i (Nat.le_refl i) (by omega)
    unfold fetchLoop
    rcases hi with hi | hi
    · rw [hi, hrec]
    · rw [hi]
      simp only [List.length_nil, gt_iff_lt, lt_irrefl, if_false]
      rw [hrec]

/-- Claim C9: the pre-resolution latest-version fetch makes at most the
fixed number of attempts; if every attempt within the budget fails or
returns an empty version, the full budget is consumed and the hardcoded
default version is used — the step itself is a total function, so no error
is returned from it. -/
theorem version_fetch_retry (retryTimes : Nat) (attempt : Nat → Option GoStr)
    (defaultVer : GoStr) :
    (fetchLoop attempt retryTimes 0).2 ≤ retryTimes
    ∧ ((∀ i, i < retryTimes → attempt i = none ∨ attempt i = some []) →
        (fetchLoop attempt retryTimes 0).2 = retryTimes
        ∧ fetchKubeVer retryTimes attempt defaultVer = defaultVer) := by
  constructor
  · exact fetchLoop_calls_le attempt retryTimes 0
  · intro h
    have hall := fetchLoop_all_fail attempt retryTimes 0
      (fun j _ h2 => h j (by omega))
    constructor
    · rw [hall]
    · unfold fetchKubeVer
      rw [hall]

/-- Witness for C9: with every attempt failing and a retry budget of 5,
all 5 calls are made and the default version is used. -/
theorem version_fetch_retry_witness :
    (fetchLoop (fun _ => none) 5 0).2 = 5
    ∧ fetchKubeVer 5 (fun _ => none) (str "1.9.0") = str "1.9.0" :=
  (version_fetch_retry 5 (fun _ => none) (str "1.9.0")).2 (fun _ _ => Or.inl rfl)
